import Mathlib

/-!
Shallow embedding of the circuit core of the virtual electrical designer
simulator, together with proofs about its behaviour.

Conventions used throughout:
* Python dicts are modelled as association lists `List (String × _)` in
  insertion order; `d.lookup k` models `d[k]` / `d.get(k)` (first match) and
  key membership models Python's `k in d`.
* Python `None`-able values are `Option`; a missing dict key read with
  `.get(key)` yields `none`.
* Python float literals are modelled as the rational/real numbers their
  decimal text denotes.
* Python exceptions are modelled with `Except` where a claim is about
  raising; code paths that cannot raise are total functions.
-/

namespace VED

/-! ## circuit_validator.py: data model

`circuit_data` is a dict with keys "components" (dict id -> component dict),
"nodes" (unused by every check) and "wires" (list of dicts with optional
"from"/"to" keys).  Non-dict wire entries are skipped by every consumer
(`isinstance(wire, dict)` guards) and are therefore omitted from the model;
component values are modelled as dicts (records of their optional fields).
-/

/-- Model of a component value inside `circuit_data["components"]`: a dict
read via `.get("name")`, `.get("type", "")`, `.get("x", 0)`, `.get("y", 0)`. -/
structure CompData where
  name : Option String := none
  ctype : Option String := none
  x : ℚ := 0
  y : ℚ := 0
deriving DecidableEq

/-- Model of a wire dict: `wire.get("from")` and `wire.get("to")`. -/
structure Wire where
  fromId : Option String := none
  toId : Option String := none
deriving DecidableEq

/-- Model of the `circuit_data` dict consumed by the validator and the
analyzer (`circuit_data.get("components", {})` etc.). -/
structure CircuitData where
  components : List (String × CompData) := []
  nodes : List String := []
  wires : List Wire := []
deriving DecidableEq

/-- Python `key in components` for the components dict. -/
def dictContains (d : List (String × CompData)) (k : String) : Bool :=
  d.any (fun p => p.1 == k)

/-- Python truthiness of an optional string (`if from_id:`): `None` and the
empty string are falsy. -/
def truthy : Option String → Bool
  | none => false
  | some s => s ≠ ""

/-- Python `str.lower()` on one character; the type strings compared by the
validator are ASCII, where lowering maps A-Z to a-z. -/
def charLower (c : Char) : Char :=
  if 'A' ≤ c ∧ c ≤ 'Z' then Char.ofNat (c.toNat + 32) else c

/-- Python `str.lower()` (ASCII fragment used by the validator). -/
def strLower (s : String) : String := ⟨s.data.map charLower⟩

/-! ## circuit_validator.py: ValidationLevel / ValidationIssue -/

/-- Enum `ValidationLevel` (`error`, `warning`, `info`). -/
inductive ValidationLevel where
  | error
  | warning
  | info
deriving DecidableEq

/-- Dataclass `ValidationIssue`. -/
structure ValidationIssue where
  level : ValidationLevel
  componentId : Option String
  message : String
  suggestion : Option String := none
deriving DecidableEq

/-! ## circuit_validator.py: the individual checks, in source order -/

/-- Check `CircuitValidator._check_empty_circuit`: warning when there are no
components. -/
def checkEmptyCircuit (components : List (String × CompData)) :
    List ValidationIssue :=
  if components.isEmpty then
    [{ level := .warning
       componentId := none
       message := "Circuit is empty"
       suggestion := some "Add components from the library to build your circuit" }]
  else []

/-- Check `CircuitValidator._check_isolated_components`: one warning per component
id that occurs as neither endpoint of any wire.  `connected_comps` is the set
of `wire.get("from")`/`wire.get("to")` values (possibly `none`). -/
def checkIsolatedComponents (components : List (String × CompData))
    (wires : List Wire) : List ValidationIssue :=
  let connected : List (Option String) := wires.flatMap (fun w => [w.fromId, w.toId])
  components.filterMap (fun p =>
    if connected.contains (some p.1) then none
    else some
      { level := .warning
        componentId := some p.1
        message := "Component " ++ (p.2.name.getD p.1) ++ " is not connected"
        suggestion := some "Connect this component to other components using wires" })

/-- One endpoint of `CircuitValidator._check_component_connectivity`:
`if from_id and from_id not in components:` append an error. -/
def wireEndIssues (components : List (String × CompData)) (oid : Option String) :
    List ValidationIssue :=
  match oid with
  | none => []
  | some sid =>
      if sid ≠ "" ∧ ¬ dictContains components sid then
        [{ level := .error
           componentId := none
           message := "Wire references non-existent component: " ++ sid
           suggestion := some "Remove this wire and reconnect to valid components" }]
      else []

/-- Check `CircuitValidator._check_component_connectivity`: errors for wires whose
(truthy) `from`/`to` ids are absent from the components dict. -/
def checkComponentConnectivity (components : List (String × CompData))
    (wires : List Wire) : List ValidationIssue :=
  wires.flatMap (fun w =>
    wireEndIssues components w.fromId ++ wireEndIssues components w.toId)

/-- Check `CircuitValidator._check_ground_reference`: warning when no component has
type `"ground"` (case-insensitive) and the circuit is non-empty. -/
def checkGroundReference (components : List (String × CompData)) :
    List ValidationIssue :=
  let hasGround := components.any
    (fun p => strLower (p.2.ctype.getD "") == "ground")
  if ¬ hasGround ∧ ¬ components.isEmpty then
    [{ level := .warning
       componentId := none
       message := "Circuit has no ground reference"
       suggestion := some "Add a ground component to establish reference potential" }]
  else []

/-- Check `CircuitValidator._check_sources`: warning when no component has a
source type and the circuit is non-empty. -/
def checkSources (components : List (String × CompData)) :
    List ValidationIssue :=
  let sourceTypes := ["voltage_source", "current_source", "voltage source", "current source"]
  let hasSources := components.any
    (fun p => sourceTypes.contains (strLower (p.2.ctype.getD "")))
  if ¬ hasSources ∧ ¬ components.isEmpty then
    [{ level := .warning
       componentId := none
       message := "Circuit has no voltage or current sources"
       suggestion := some "Add a voltage or current source to analyze the circuit" }]
  else []

/-! ## adjacency construction (shared, textually identical, in
`CircuitValidator._check_loops` and `CircuitAnalyzer._build_adjacency_list`) -/

/-- Python `adjacency[k]` with default `[]` (`adjacency.get(k, [])`). -/
def adjGet (adj : List (String × List String)) (k : String) : List String :=
  (adj.lookup k).getD []

/-- Python `k in adjacency`. -/
def adjContains (adj : List (String × List String)) (k : String) : Bool :=
  adj.any (fun p => p.1 == k)

/-- Model of `if v not in adjacency[k]: adjacency[k].append(v)`. -/
def adjInsert (adj : List (String × List String)) (k v : String) :
    List (String × List String) :=
  adj.map (fun p => if p.1 = k then (p.1, if v ∈ p.2 then p.2 else p.2 ++ [v]) else p)

/-- Processing of one wire: when both endpoint ids are adjacency keys, add
the edge in both directions, skipping duplicates. -/
def wireStep (adj : List (String × List String)) (w : Wire) :
    List (String × List String) :=
  match w.fromId, w.toId with
  | some f, some t =>
      if adjContains adj f ∧ adjContains adj t then
        adjInsert (adjInsert adj f t) t f
      else adj
  | _, _ => adj

/-- Adjacency-list construction: keys are the component ids (insertion
order), values start empty, then every wire is processed in order. -/
def buildAdjacency (components : List (String × CompData)) (wires : List Wire) :
    List (String × List String) :=
  wires.foldl wireStep (components.map (fun p => (p.1, ([] : List String))))

/-! ## circuit_validator.py: _check_loops (DFS connectivity check) -/

/-- Model of `CircuitValidator._dfs`, a recursive depth-first search with a shared
visited set, modelled with a fuel parameter (the Python recursion visits
each key at most once, so `adj.length + 1` fuel is never exhausted). -/
def dfsGo (adj : List (String × List String)) :
    ℕ → String → List String → List String
  | 0, _, visited => visited
  | fuel + 1, node, visited =>
      (adjGet adj node).foldl
        (fun vis nb => if nb ∈ vis then vis else dfsGo adj fuel nb vis)
        (visited ++ [node])

/-- Check `CircuitValidator._check_loops`: builds the adjacency list, runs a DFS
from the first key, and emits an error per unreached component.  The Python
code iterates the `unvisited` set; the model iterates unreached keys in key
order (no claim depends on the order of these error findings). -/
def checkLoops (components : List (String × CompData)) (wires : List Wire) :
    List ValidationIssue :=
  let adj := buildAdjacency components wires
  match adj with
  | [] => []
  | (start, _) :: _ =>
      let visited := dfsGo adj (adj.length + 1) start []
      (adj.map Prod.fst).filterMap (fun cid =>
        if cid ∈ visited then none
        else some
          { level := .error
            componentId := some cid
            message := "Component " ++
              (match components.lookup cid with
               | some c => c.name.getD cid
               | none => cid) ++ " is disconnected from main circuit"
            suggestion := some "Connect this component to the rest of the circuit" })

/-- Model of `CircuitValidator.validate_circuit`: runs the fixed battery of checks in
source order, and is valid iff no accumulated issue has level `error`. -/
def validateCircuit (cd : CircuitData) : Bool × List ValidationIssue :=
  let issues :=
    checkEmptyCircuit cd.components ++
    checkIsolatedComponents cd.components cd.wires ++
    checkComponentConnectivity cd.components cd.wires ++
    checkGroundReference cd.components ++
    checkSources cd.components ++
    checkLoops cd.components cd.wires
  (! issues.any (fun i => i.level == .error), issues)

/-! ## circuit_model.py: Node, Component, Circuit -/

/-- Model of `circuit_model.Node`: id, name, voltage, inverse index of connected
component ids. -/
structure MNode where
  id : String
  name : String
  voltage : ℚ := 0
  connectedComponents : List String := []
deriving DecidableEq

/-- Model of `circuit_model.Component`: id, type (the `ComponentType` enum value
string), name, ordered bound node ids, parameters dict, display position. -/
structure MComponent where
  id : String
  ctype : String
  name : String
  nodes : List String := []
  parameters : List (String × ℚ) := []
  x : ℚ := 0
  y : ℚ := 0
deriving DecidableEq

/-- Model of `circuit_model.Circuit`: nodes and components dicts plus the
connections list. -/
structure Circuit where
  id : String
  name : String
  nodes : List (String × MNode) := []
  components : List (String × MComponent) := []
  connections : List (String × String) := []
deriving DecidableEq

/-- Errors a Netlist-mutation is specified to raise; `Circuit.connect`
contains no `raise`, so every path of its model returns `Except.ok`. -/
inductive StructuralError where
  | unknownReference
  | terminalIndex
deriving DecidableEq

instance {ε α : Type} [DecidableEq ε] [DecidableEq α] :
    DecidableEq (Except ε α) := fun x y =>
  match x, y with
  | .ok a, .ok b =>
      if h : a = b then .isTrue (by rw [h]) else .isFalse (by simp [h])
  | .error a, .error b =>
      if h : a = b then .isTrue (by rw [h]) else .isFalse (by simp [h])
  | .ok _, .error _ => .isFalse (by simp)
  | .error _, .ok _ => .isFalse (by simp)

/-- Model of `Circuit.connect(node_id, comp_id)`: when both ids are present, append
the node id to the component's bound nodes and the component id to the
node's inverse index; otherwise fall through and return with no mutation
and no exception. -/
def Circuit.connect (c : Circuit) (nodeId compId : String) :
    Except StructuralError Circuit :=
  if (c.nodes.lookup nodeId).isSome ∧ (c.components.lookup compId).isSome then
    .ok { c with
      components := c.components.map (fun p =>
        if p.1 = compId then (p.1, { p.2 with nodes := p.2.nodes ++ [nodeId] }) else p)
      nodes := c.nodes.map (fun p =>
        if p.1 = nodeId then
          (p.1, { p.2 with connectedComponents := p.2.connectedComponents ++ [compId] })
        else p) }
  else .ok c

/-! ## circuit_analyzer.py: _analyze_connectivity

The analyzer first rebuilds the adjacency list (`_build_adjacency_list`,
textually the same construction as the validator's, modelled once as
`buildAdjacency`), then repeatedly launches a breadth-first search from the
first unvisited component id, counting one connected group per launch.
The Python `while queue:` loop is modelled with a fuel parameter; every
enqueued id is freshly added to `visited`, so a run pops at most
`components.length + 1` elements and the fuel used below is never
exhausted (proved via the `card` measure in the lemmas). -/

/-- The body of the `while queue:` BFS loop: pop from the left, append each
unvisited neighbour to `visited` and to the right of the queue. -/
def bfsRun (adj : List (String × List String)) :
    ℕ → List String → List String → List String
  | 0, _, visited => visited
  | _ + 1, [], visited => visited
  | fuel + 1, current :: queue, visited =>
      let s := (adjGet adj current).foldl
        (fun (vq : List String × List String) nb =>
          if nb ∈ vq.1 then vq else (vq.1 ++ [nb], vq.2 ++ [nb]))
        (visited, queue)
      bfsRun adj fuel s.2 s.1

/-- The `for comp_id in components:` loop of `_analyze_connectivity`,
instrumented to return the list of per-launch visited deltas (the connected
groups; the Python code retains only their number in `connected_groups` and
their union in `visited`) together with the final visited list. -/
def connLoop (adj : List (String × List String)) (fuel : ℕ) :
    List String → List String → List (List String) × List String
  | [], visited => ([], visited)
  | c :: rest, visited =>
      if c ∈ visited then connLoop adj fuel rest visited
      else
        let v := bfsRun adj fuel [c] (visited ++ [c])
        let r := connLoop adj fuel rest v
        (v.drop visited.length :: r.1, r.2)

/-- The connected groups computed by `_analyze_connectivity`'s BFS sweep:
one list of component ids per BFS launch. -/
def connectivityGroups (components : List (String × CompData))
    (wires : List Wire) : List (List String) :=
  let adj := buildAdjacency components wires
  (connLoop adj (components.length + 1) (components.map Prod.fst) []).1

/-- The dict returned by `_analyze_connectivity` (the `separate_groups` key
is absent in the empty-circuit early return). -/
structure ConnectivityInfo where
  connectedComponents : ℕ
  isolatedComponents : ℕ
  separateGroups : Option ℕ
deriving DecidableEq

/-- Model of `CircuitAnalyzer._analyze_connectivity`: empty early return, else the
final visited count, the count of components with an empty (falsy)
adjacency entry, and the number of BFS launches. -/
def analyzeConnectivity (components : List (String × CompData))
    (wires : List Wire) : ConnectivityInfo :=
  if components.isEmpty then ⟨0, 0, none⟩
  else
    let adj := buildAdjacency components wires
    let r := connLoop adj (components.length + 1) (components.map Prod.fst) []
    ⟨r.2.length,
     ((components.map Prod.fst).filter (fun c => (adjGet adj c).isEmpty)).length,
     some r.1.length⟩

/-- A netlist in which every component is wired into a single chain: one
wire per consecutive pair of component ids. -/
def chainWires (ids : List String) : List Wire :=
  (ids.zip ids.tail).map (fun p => { fromId := some p.1, toId := some p.2 })

/-- Components dict for a chain netlist (component payloads are irrelevant
to connectivity). -/
def chainComponents (ids : List String) : List (String × CompData) :=
  ids.map (fun i => (i, {}))

/-! ## simulation_engine.py

Numeric series are real-valued lists; a scalar stored in a result dict
(e.g. `"V_output_mean"`) is modelled as a singleton list.  The two calls
into external libraries whose numerics the engine does not own are supplied
as inputs: `z` gives the standard-normal draws behind
`np.random.normal(0, sigma)` (a draw with standard deviation `sigma` is
`sigma * z i`), and `odeSol` gives the `odeint` solution samples of the
transient branch.  `numpy` float arithmetic on division by zero yields
`inf`/`nan` without raising; the model's total real division diverges from
those junk values but never from the `status`/`error_message` fields. -/

/-- Dataclass `SimulationConfig` (defaults from the source). -/
structure SimulationConfig where
  simType : String
  duration : ℝ := 1
  timeStep : ℝ := 1/1000
  sweepingParameter : Option String := none
  sweepRange : Option (ℝ × ℝ) := none
  monteCarloSamples : ℤ := 100

/-- Dataclass `SimulationResult`. -/
structure SimulationResult where
  timePoints : List ℝ
  nodeVoltages : List (String × List ℝ)
  componentCurrents : List (String × List ℝ)
  powerDissipation : List (String × List ℝ)
  status : String
  errorMessage : Option String := none

/-- A failed result with empty series, as built at every failure site. -/
def emptyFailed (msg : String) : SimulationResult :=
  { timePoints := [], nodeVoltages := [], componentCurrents := [],
    powerDissipation := [], status := "failed", errorMessage := some msg }

open Classical in
/-- Model of `np.linalg.solve` on a 2x2 system (row-major `a b / c d`, rhs `e f`):
raises `LinAlgError` (modelled as `none`) exactly on a singular matrix,
else returns the unique solution. -/
noncomputable def npLinalgSolve2 (a b c d e f : ℝ) : Option (ℝ × ℝ) :=
  if a * d - b * c = 0 then none
  else some ((e * d - b * f) / (a * d - b * c), (a * f - e * c) / (a * d - b * c))

/-- Model of `SimulationEngine._run_dc`: assembles the hardcoded example admittance
system `Y = [[0.01, -0.01], [-0.01, 0.01]]`, `I = [0.01, 0]` and solves it;
on `LinAlgError` returns a failed result with empty series. -/
noncomputable def runDC : SimulationResult :=
  match npLinalgSolve2 (1/100) (-(1/100)) (-(1/100)) (1/100) (1/100) 0 with
  | none =>
      { timePoints := [0], nodeVoltages := [], componentCurrents := [],
        powerDissipation := [], status := "failed",
        errorMessage := some "Singular admittance matrix - check circuit" }
  | some v =>
      { timePoints := [0]
        nodeVoltages := [("node_0", [v.1]), ("node_1", [v.2])]
        componentCurrents := [("R1", [v.1 / 1000])]
        powerDissipation := [("R1", [v.1 ^ 2 / 1000])]
        status := "success" }

/-- The `i`-th entry of `np.logspace(np.log10(fs), np.log10(fe), 100)`:
`10 ** (log10 fs + i * (log10 fe - log10 fs) / 99)`. -/
noncomputable def acFreq (fs fe : ℝ) (i : ℕ) : ℝ :=
  (10 : ℝ) ^ (Real.logb 10 fs + (i : ℝ) * (Real.logb 10 fe - Real.logb 10 fs) / 99)

/-- Per-frequency total impedance of the hardcoded series RLC
(`R + j*omega*L + 1/(j*omega*C)` with R=1000, L=0.001, C=1e-6). -/
noncomputable def acZtotal (f : ℝ) : ℂ :=
  1000 + Complex.I * ((2 * Real.pi * f : ℝ) : ℂ) * (1/1000) +
    1 / (Complex.I * ((2 * Real.pi * f : ℝ) : ℂ) * (1/1000000))

/-- Model of `np.angle` followed by the degree conversion: the principal argument in degrees. -/
noncomputable def npAngleDeg (zc : ℂ) : ℝ := Complex.arg zc * 180 / Real.pi

/-- Model of `SimulationEngine._run_ac`: 100 logarithmically spaced frequency points
over `sweep_range or (1, 1e6)`; every output series is a per-point pure
function mapped over the frequency axis (the loop carries no state). -/
noncomputable def runAC (sweepRange : Option (ℝ × ℝ)) : SimulationResult :=
  let fs := (sweepRange.getD (1, 1000000)).1
  let fe := (sweepRange.getD (1, 1000000)).2
  let freqs := (List.range 100).map (acFreq fs fe)
  { timePoints := freqs
    nodeVoltages := [
      ("V_in", freqs.map (fun _ => 1)),
      ("Z_magnitude", freqs.map (fun f => Complex.abs (acZtotal f))),
      ("Z_phase", freqs.map (fun f => npAngleDeg (acZtotal f)))]
    componentCurrents := [
      ("I_total", freqs.map (fun f => Complex.abs (1 / acZtotal f))),
      ("I_phase", freqs.map (fun f => npAngleDeg (1 / acZtotal f)))]
    powerDissipation := [
      ("P_real", freqs.map (fun f => Complex.abs (1 / acZtotal f) ^ 2 * 1000)),
      ("P_reactive", freqs.map (fun f =>
        (acZtotal f).im * Complex.abs (1 / acZtotal f) ^ 2 / Complex.abs (acZtotal f)))]
    status := "success" }

/-- Model of `np.arange(start, stop, step)` for nonzero step: `ceil((stop-start)/step)`
points (clamped at zero) spaced by `step`. -/
noncomputable def npArange (start stop step : ℝ) : List ℝ :=
  (List.range (Int.toNat ⌈(stop - start) / step⌉)).map (fun i => start + i * step)

/-- Model of `np.gradient` with unit spacing: one-sided differences at the ends,
central differences inside (callers guarantee length at least 2). -/
noncomputable def pyGradient (l : List ℝ) : List ℝ :=
  (List.range l.length).map (fun i =>
    if i = 0 then l.getD 1 0 - l.getD 0 0
    else if i = l.length - 1 then l.getD i 0 - l.getD (i - 1) 0
    else (l.getD (i + 1) 0 - l.getD (i - 1) 0) / 2)

open Classical in
/-- Model of `SimulationEngine._run_transient`: hardcoded RC example driven through
`odeint` (supplied as `odeSol`).  A zero time step makes `np.arange` raise
`ZeroDivisionError`; with fewer than two time points `odeint` (empty axis)
or `np.gradient` (singleton) raises; each lands in the `except` clause and
produces a failed result whose message wraps the stringified exception. -/
noncomputable def runTransient (duration timeStep : ℝ) (odeSol : ℝ → ℝ) :
    SimulationResult :=
  if timeStep = 0 then
    emptyFailed "Transient analysis failed: division by zero"
  else
    let ts := npArange 0 duration timeStep
    if ts.length < 2 then
      emptyFailed "Transient analysis failed: array shape too small"
    else
      let vin := ts.map (fun t => if t < 1/10 then (5 : ℝ) else 0)
      let iRes := ts.map (fun t => ((if t < 1/10 then (5 : ℝ) else 0) - odeSol t) / 1000)
      { timePoints := ts
        nodeVoltages := [("V_input", vin), ("V_output", ts.map odeSol)]
        componentCurrents := [("I_resistor", iRes), ("I_capacitor", iRes.map (fun i => -i))]
        powerDissipation := [
          ("P_resistor", iRes.map (fun i => i ^ 2 * 1000)),
          ("P_reactive", (pyGradient ((ts.map odeSol).map
            (fun v => 1/2 * (1/1000000) * v ^ 2))).map (fun g => |g|))]
        status := "success" }

/-- The `i`-th entry of `np.linspace(start, stop, n)` (endpoint included). -/
noncomputable def npLinspace (start stop : ℝ) (n : ℕ) : List ℝ :=
  (List.range n).map (fun i => start + i * (stop - start) / ((n : ℝ) - 1))

/-- Model of `SimulationEngine._run_parametric`: 50 linearly spaced values of the
hardcoded example (R swept, 5 V source with 0.1 ohm source resistance). -/
noncomputable def runParametric (param : Option String)
    (sweepRange : Option (ℝ × ℝ)) : SimulationResult :=
  let pname := match param with
    | none => "resistance"
    | some "" => "resistance"
    | some s => s
  let se := sweepRange.getD (100, 10000)
  let pvals := npLinspace se.1 se.2 50
  { timePoints := pvals
    nodeVoltages := [(pname, pvals),
      ("output_voltage", pvals.map (fun r => 5 - 5 / r * (1/10)))]
    componentCurrents := [("current", pvals.map (fun r => 5 / r))]
    powerDissipation := [("power", pvals.map (fun r => (5 / r) ^ 2 * r))]
    status := "success" }

/-- The nominal resistance hardcoded in `_run_monte_carlo`. -/
noncomputable def mcRNominal : ℝ := 1000

/-- The tolerance hardcoded in `_run_monte_carlo` (`R_tolerance = 0.05`);
no caller-supplied tolerance exists. -/
noncomputable def mcRTolerance : ℝ := 1/20

/-- The standard deviation passed to `np.random.normal(0, ...)`:
`R_tolerance / 3`, fixed for every run. -/
noncomputable def mcSigma : ℝ := mcRTolerance / 3

/-- The `i`-th sampled resistance: `R_nominal * (1 + normal(0, sigma))`,
with the normal draw written as `sigma * z i` for a standard draw `z i`. -/
noncomputable def mcSample (z : ℕ → ℝ) (i : ℕ) : ℝ :=
  mcRNominal * (1 + mcSigma * z i)

/-- Model of `np.mean` of a 1-d array. -/
noncomputable def pyMean (l : List ℝ) : ℝ := l.sum / l.length

/-- Model of `np.std` of a 1-d array (population standard deviation). -/
noncomputable def pyStd (l : List ℝ) : ℝ :=
  Real.sqrt (pyMean (l.map (fun x => (x - pyMean l) ^ 2)))

/-- Model of `SimulationEngine._run_monte_carlo`: `samples or 100` resistor samples
around the hardcoded nominal with the hardcoded tolerance; reports mean,
standard deviation and the raw samples. -/
noncomputable def runMonteCarlo (samples : ℤ) (z : ℕ → ℝ) : SimulationResult :=
  let n := if samples = 0 then 100 else samples
  let idx := List.range n.toNat
  let iS := idx.map (fun i => 5 / mcSample z i)
  let vS := idx.map (fun i => 5 - 5 / mcSample z i * (1/10))
  let pS := iS.map (fun i => i ^ 2 * mcRNominal)
  { timePoints := idx.map (fun i => (i : ℝ))
    nodeVoltages := [("V_output_mean", [pyMean vS]), ("V_output_std", [pyStd vS]),
      ("V_output_samples", vS)]
    componentCurrents := [("I_mean", [pyMean iS]), ("I_std", [pyStd iS]),
      ("I_samples", iS)]
    powerDissipation := [("P_mean", [pyMean pS]), ("P_std", [pyStd pS])]
    status := "success" }

/-- Inputs of one `SimulationEngine.run()` call: the configured analysis and
the external numeric sources (random draws, `odeint` output). -/
structure EngineInput where
  config : Option SimulationConfig
  z : ℕ → ℝ
  odeSol : ℝ → ℝ

/-- Observable outcome of `run()`: the returned result and the engine's
`is_running` flag after the call. -/
structure EngineOutput where
  result : SimulationResult
  isRunning : Bool

/-- Model of `SimulationEngine.run` with no registered callbacks: the `None`-config
early return precedes `self.is_running = True` and so leaves the flag at its
prior value; every other path resets it to `False` before returning.  The
dispatch and the per-branch `try`/`except` clauses make every branch return
a result rather than propagate. -/
noncomputable def SimulationEngine.run (isRunning0 : Bool) (inp : EngineInput) :
    EngineOutput :=
  match inp.config with
  | none => ⟨emptyFailed "No simulation configuration set", isRunning0⟩
  | some cfg =>
      let result :=
        if cfg.simType = "dc" then runDC
        else if cfg.simType = "ac" then runAC cfg.sweepRange
        else if cfg.simType = "transient" then
          runTransient cfg.duration cfg.timeStep inp.odeSol
        else if cfg.simType = "parametric" then
          runParametric cfg.sweepingParameter cfg.sweepRange
        else if cfg.simType = "monte_carlo" then
          runMonteCarlo cfg.monteCarloSamples inp.z
        else emptyFailed "Unknown simulation type"
      ⟨result, false⟩

/-! ## project_manager.py: circuit file round trip

`save_circuit_to_file` runs `json.dump` on the dict produced by
`Circuit.to_dict`; `load_circuit_from_file` runs `json.load` on the file
text.  The composition is modelled value-to-value: `json.dump` writes a
Python tuple as a JSON array, which `json.load` reads back as a list;
every other value used by `to_dict` (strings, finite numbers, lists,
string-keyed dicts) round-trips to itself. -/

/-- Python values that can appear in a circuit dict. -/
inductive PyValue where
  | str (s : String)
  | num (q : ℚ)
  | list (items : List PyValue)
  | tuple (items : List PyValue)
  | dict (entries : List (String × PyValue))

/-- Value-level effect of `json.dump` followed by `json.load`: tuples
collapse to lists, all other structure is preserved. -/
def jsonRoundTrip : PyValue → PyValue
  | .str s => .str s
  | .num q => .num q
  | .list xs => .list (xs.attach.map (fun x => jsonRoundTrip x.1))
  | .tuple xs => .list (xs.attach.map (fun x => jsonRoundTrip x.1))
  | .dict es => .dict (es.attach.map (fun e => (e.1.1, jsonRoundTrip e.1.2)))
decreasing_by
  · have := List.sizeOf_lt_of_mem x.2
    simp only [PyValue.list.sizeOf_spec]
    omega
  · have := List.sizeOf_lt_of_mem x.2
    simp only [PyValue.tuple.sizeOf_spec]
    omega
  · have h1 := List.sizeOf_lt_of_mem e.2
    have h2 : sizeOf (e.1.2) < sizeOf e.1 := by
      obtain ⟨a, b⟩ := e.1
      simp
    simp only [PyValue.dict.sizeOf_spec]
    omega

/-- Model of `Node.to_dict` (drops `connected_components`). -/
def MNode.toDict (n : MNode) : PyValue :=
  .dict [("id", .str n.id), ("name", .str n.name), ("voltage", .num n.voltage)]

/-- Model of `Component.to_dict`. -/
def MComponent.toDict (c : MComponent) : PyValue :=
  .dict [("id", .str c.id), ("type", .str c.ctype), ("name", .str c.name),
         ("nodes", .list (c.nodes.map PyValue.str)),
         ("parameters", .dict (c.parameters.map (fun p => (p.1, PyValue.num p.2)))),
         ("x", .num c.x), ("y", .num c.y)]

/-- Model of `Circuit.to_dict`. -/
def Circuit.toDict (c : Circuit) : PyValue :=
  .dict [("id", .str c.id), ("name", .str c.name),
         ("nodes", .dict (c.nodes.map (fun p => (p.1, p.2.toDict)))),
         ("components", .dict (c.components.map (fun p => (p.1, p.2.toDict)))),
         ("connections", .list (c.connections.map
           (fun p => .tuple [.str p.1, .str p.2])))]

/-- Electrical topology of a circuit: node id set, component id set,
per-component terminal/node bindings and the connections list; display-only
data (positions, names, voltages, the redundant per-node inverse index) is
not part of it. -/
structure Topology where
  nodeIds : List String
  componentIds : List String
  bindings : List (String × List String)
  connections : List (String × String)
deriving DecidableEq

/-- Topology read directly off a `Circuit` object. -/
def Circuit.topology (c : Circuit) : Topology :=
  { nodeIds := c.nodes.map Prod.fst
    componentIds := c.components.map Prod.fst
    bindings := c.components.map (fun p => (p.1, p.2.nodes))
    connections := c.connections }

/-- Read a string out of a loaded JSON value. -/
def PyValue.asString : PyValue → Option String
  | .str s => some s
  | _ => none

/-- Traversal of a list under an elementwise parser: succeeds only when
every element parses. -/
def parseAll {β γ : Type} (f : β → Option γ) : List β → Option (List γ)
  | [] => some []
  | b :: t => (f b).bind (fun c => (parseAll f t).map (fun cs => c :: cs))

/-- Read a list of strings out of a loaded JSON value. -/
def PyValue.asStringList : PyValue → Option (List String)
  | .list xs => parseAll PyValue.asString xs
  | _ => none

/-- Read a connection pair out of a loaded JSON value (a two-element array
after the round trip). -/
def PyValue.asPair : PyValue → Option (String × String)
  | .list [.str a, .str b] => some (a, b)
  | _ => none

/-- Entries of a loaded JSON object. -/
def PyValue.dictEntries : PyValue → Option (List (String × PyValue))
  | .dict es => some es
  | _ => none

/-- The terminal bindings of one loaded component dict: its "nodes" list. -/
def compBindings (v : PyValue) : Option (List String) :=
  v.dictEntries.bind (fun es => (es.lookup "nodes").bind PyValue.asStringList)

/-- Electrical topology read off a loaded circuit dict, ignoring every
field other than the node keys, component keys, per-component "nodes"
bindings and the connections list. -/
def extractTopology (v : PyValue) : Option Topology := do
  let es ← v.dictEntries
  let nodes ← (es.lookup "nodes").bind PyValue.dictEntries
  let comps ← (es.lookup "components").bind PyValue.dictEntries
  let connsv ← es.lookup "connections"
  let conns ← match connsv with
    | .list xs => parseAll PyValue.asPair xs
    | _ => none
  let binds ← parseAll (fun p => (compBindings p.2).map (fun ns => (p.1, ns))) comps
  pure { nodeIds := nodes.map Prod.fst
         componentIds := comps.map Prod.fst
         bindings := binds
         connections := conns }

/-- Display-only edit of a circuit: reposition every component (the kind of
change the round-trip claim requires the topology to be independent of). -/
def mapPositions (g : String → ℚ × ℚ) (c : Circuit) : Circuit :=
  { c with components := c.components.map (fun p =>
      (p.1, { p.2 with x := (g p.1).1, y := (g p.1).2 })) }

/-! ## Concrete inputs used by counterexamples and witnesses -/

/-- One-component netlist whose single wire names the empty string as its
`from` component id: the id is absent from the components dict, but Python's
`if from_id:` truthiness guard skips it. -/
def danglingEmptyIdCD : CircuitData :=
  { components := [("a", {})]
    wires := [{ fromId := some "", toId := some "a" }] }

/-- One-component netlist whose single wire references the absent id "b". -/
def danglingWireCD : CircuitData :=
  { components := [("a", {})]
    wires := [{ fromId := some "b", toId := some "a" }] }

/-- Freshly created circuit with no nodes and no components. -/
def c2Circuit : Circuit := { id := "c1", name := "Circuit_c1" }

/-- Component ids for a three-element chain netlist. -/
def chain3 : List String := ["r1", "r2", "r3"]

/-- Concrete standard-normal draw sequence: the first draw hits the mean,
the second lands three standard deviations above it. -/
noncomputable def mcDraws : ℕ → ℝ := fun i => if i = 0 then 0 else 3

/-! # Theorems -/

/-- Validity of an issue list is exactly the absence of error findings. -/
lemma not_any_error_iff (l : List ValidationIssue) :
    (! l.any (fun i => i.level == ValidationLevel.error)) = true ↔
      ∀ i ∈ l, i.level ≠ ValidationLevel.error := by
  simp

/-- Projections of `validateCircuit` share the accumulated issue list. -/
lemma validateCircuit_fst (cd : CircuitData) :
    (validateCircuit cd).1 =
      ! (validateCircuit cd).2.any (fun i => i.level == ValidationLevel.error) := rfl

/-- C1: for every circuit_data input, validate_circuit returns a pair
(is_valid, issues) in which is_valid is true if and only if no issue in the
returned list has level error; warning-level and info-level findings never
make is_valid false. -/
theorem validateCircuit_isValid_iff_no_error (cd : CircuitData) :
    (validateCircuit cd).1 = true ↔
      ∀ i ∈ (validateCircuit cd).2, i.level ≠ ValidationLevel.error := by
  rw [validateCircuit_fst]
  exact not_any_error_iff _

/-- Witness for C1 at a concrete one-component netlist. -/
theorem validateCircuit_isValid_iff_no_error_witness :
    (validateCircuit { components := [("w1", {})] }).1 = true ↔
      ∀ i ∈ (validateCircuit { components := [("w1", {})] }).2,
        i.level ≠ ValidationLevel.error :=
  validateCircuit_isValid_iff_no_error { components := [("w1", {})] }

/-- C5: validate_circuit on an empty netlist returns is_valid = True and
exactly one finding, the warning-level empty-circuit finding. -/
theorem validateCircuit_empty_netlist :
    validateCircuit {} =
      (true,
       [{ level := ValidationLevel.warning
          componentId := none
          message := "Circuit is empty"
          suggestion := some "Add components from the library to build your circuit" }]) := by
  decide

/-- Counterexample to C6 as stated: the wire of `danglingEmptyIdCD` carries
a `from` component id (the empty string) that is not present in the
components map, yet `validate_circuit` returns is_valid = True, because the
dangling-wire check's `if from_id:` truthiness guard skips falsy ids. -/
theorem validateCircuit_empty_id_dangling_wire_cex :
    danglingEmptyIdCD.wires = [{ fromId := some "", toId := some "a" }] ∧
      dictContains danglingEmptyIdCD.components "" = false ∧
      (validateCircuit danglingEmptyIdCD).1 = true := by
  decide

/-- C6 (amended): for every netlist whose wire list contains a wire whose
`from` or `to` component id is truthy (non-empty) and not present in the
components map, validate_circuit returns is_valid = False and the returned
issue list contains at least one error-level finding for that wire. -/
theorem validateCircuit_dangling_wire_invalid (cd : CircuitData) (w : Wire)
    (f : String) (hw : w ∈ cd.wires) (hend : w.fromId = some f ∨ w.toId = some f)
    (hne : f ≠ "") (habs : dictContains cd.components f = false) :
    (validateCircuit cd).1 = false ∧
      ∃ i ∈ (validateCircuit cd).2, i.level = ValidationLevel.error := by
  have herr : wireEndIssues cd.components (some f) =
      [{ level := .error
         componentId := none
         message := "Wire references non-existent component: " ++ f
         suggestion := some "Remove this wire and reconnect to valid components" }] := by
    simp [wireEndIssues, hne, habs]
  have hmem3 :
      ({ level := .error
         componentId := none
         message := "Wire references non-existent component: " ++ f
         suggestion := some "Remove this wire and reconnect to valid components" } :
        ValidationIssue) ∈ checkComponentConnectivity cd.components cd.wires := by
    rw [checkComponentConnectivity, List.mem_flatMap]
    refine ⟨w, hw, ?_⟩
    rcases hend with h | h <;> rw [h, List.mem_append] <;>
      [exact Or.inl (herr ▸ List.mem_singleton_self _);
       exact Or.inr (herr ▸ List.mem_singleton_self _)]
  have hmem :
      ({ level := .error
         componentId := none
         message := "Wire references non-existent component: " ++ f
         suggestion := some "Remove this wire and reconnect to valid components" } :
        ValidationIssue) ∈ (validateCircuit cd).2 := by
    have hsplit : (validateCircuit cd).2 =
        checkEmptyCircuit cd.components ++
        checkIsolatedComponents cd.components cd.wires ++
        checkComponentConnectivity cd.components cd.wires ++
        checkGroundReference cd.components ++
        checkSources cd.components ++
        checkLoops cd.components cd.wires := rfl
    rw [hsplit]
    simp only [List.mem_append]
    tauto
  refine ⟨?_, ⟨_, hmem, rfl⟩⟩
  rw [validateCircuit_fst]
  simp only [Bool.not_eq_false', List.any_eq_true]
  exact ⟨_, hmem, by simp⟩

/-- Witness for C6 (amended) at `danglingWireCD`. -/
theorem validateCircuit_dangling_wire_invalid_witness :
    (validateCircuit danglingWireCD).1 = false ∧
      ∃ i ∈ (validateCircuit danglingWireCD).2, i.level = ValidationLevel.error :=
  validateCircuit_dangling_wire_invalid danglingWireCD
    { fromId := some "b", toId := some "a" } "b" (by decide) (Or.inl rfl)
    (by decide) (by decide)

/-- Counterexample to C2 as stated: both ids are absent from a freshly
created circuit, yet `Circuit.connect` returns normally (no
`UnknownReferenceError` is raised anywhere in the method). -/
theorem connect_unknown_ids_does_not_raise :
    c2Circuit.nodes.lookup "n1" = none ∧
      c2Circuit.components.lookup "r1" = none ∧
      c2Circuit.connect "n1" "r1" = Except.ok c2Circuit := by
  decide

/-- C2 (amended): for every call of `Circuit.connect` in which either the
node id or the component id is absent from the netlist, the call is a
silent no-op: it raises nothing and leaves the netlist state unchanged. -/
theorem connect_unknown_ids_silent_noop (c : Circuit) (nodeId compId : String)
    (h : c.nodes.lookup nodeId = none ∨ c.components.lookup compId = none) :
    c.connect nodeId compId = Except.ok c := by
  rw [Circuit.connect, if_neg]
  rintro ⟨h1, h2⟩
  rcases h with h | h
  · rw [h] at h1; simp at h1
  · rw [h] at h2; simp at h2

/-- Witness for C2 (amended) at a concrete circuit with both ids absent. -/
theorem connect_unknown_ids_silent_noop_witness :
    c2Circuit.nodes.lookup "n1" = none ∧
      c2Circuit.connect "n1" "r1" = Except.ok c2Circuit :=
  ⟨by decide, connect_unknown_ids_silent_noop c2Circuit "n1" "r1" (Or.inl (by decide))⟩

/-! ## Simulation engine theorems -/

/-- C3: the DC solve assembles a singular system (the hardcoded example
admittance matrix has determinant zero), and on that singular system the
solver reports the failure through the result's status and error message
while returning no node-voltage, current or power series at all - in
particular no substituted zero voltages. -/
theorem runDC_singular_fails_with_no_series :
    (1 / 100 : ℝ) * (1 / 100) - -(1 / 100) * -(1 / 100) = 0 ∧
      npLinalgSolve2 (1/100) (-(1/100)) (-(1/100)) (1/100) (1/100) 0 = none ∧
      runDC.status = "failed" ∧
      runDC.errorMessage = some "Singular admittance matrix - check circuit" ∧
      runDC.nodeVoltages = [] ∧
      runDC.componentCurrents = [] ∧
      runDC.powerDissipation = [] := by
  have hdet : (1 / 100 : ℝ) * (1 / 100) - -(1 / 100) * -(1 / 100) = 0 := by norm_num
  have hsolve : npLinalgSolve2 (1/100) (-(1/100)) (-(1/100)) (1/100) (1/100) 0 = none := by
    rw [npLinalgSolve2, if_pos hdet]
  refine ⟨hdet, hsolve, ?_⟩
  simp only [runDC, hsolve]
  simp

/-- Both status fields of the no-configuration early return. -/
lemma emptyFailed_ok (msg : String) :
    ((emptyFailed msg).status = "success" ∨ (emptyFailed msg).status = "failed") ∧
      ((emptyFailed msg).status = "failed" → (emptyFailed msg).errorMessage ≠ none) := by
  exact ⟨Or.inr rfl, fun _ => by simp [emptyFailed]⟩

/-- Status discipline of the DC branch. -/
lemma runDC_ok :
    (runDC.status = "success" ∨ runDC.status = "failed") ∧
      (runDC.status = "failed" → runDC.errorMessage ≠ none) := by
  rcases h : npLinalgSolve2 (1/100) (-(1/100)) (-(1/100)) (1/100) (1/100) 0 with _ | v <;>
    · simp only [runDC, h]
      simp

/-- Status discipline of the AC branch (it always succeeds). -/
lemma runAC_ok (sr : Option (ℝ × ℝ)) :
    ((runAC sr).status = "success" ∨ (runAC sr).status = "failed") ∧
      ((runAC sr).status = "failed" → (runAC sr).errorMessage ≠ none) := by
  refine ⟨Or.inl rfl, fun hc => ?_⟩
  simp [runAC] at hc

/-- Status discipline of the transient branch. -/
lemma runTransient_ok (d t : ℝ) (g : ℝ → ℝ) :
    ((runTransient d t g).status = "success" ∨ (runTransient d t g).status = "failed") ∧
      ((runTransient d t g).status = "failed" →
        (runTransient d t g).errorMessage ≠ none) := by
  rw [runTransient]
  split_ifs with h1
  · simp [emptyFailed]
  · by_cases h2 : (npArange 0 d t).length < 2 <;> simp [h2, emptyFailed]

/-- Status discipline of the parametric branch (it always succeeds). -/
lemma runParametric_ok (p : Option String) (sr : Option (ℝ × ℝ)) :
    ((runParametric p sr).status = "success" ∨ (runParametric p sr).status = "failed") ∧
      ((runParametric p sr).status = "failed" →
        (runParametric p sr).errorMessage ≠ none) := by
  refine ⟨Or.inl rfl, fun hc => ?_⟩
  simp [runParametric] at hc

/-- Status discipline of the Monte Carlo branch (it always succeeds). -/
lemma runMonteCarlo_ok (n : ℤ) (z : ℕ → ℝ) :
    ((runMonteCarlo n z).status = "success" ∨ (runMonteCarlo n z).status = "failed") ∧
      ((runMonteCarlo n z).status = "failed" →
        (runMonteCarlo n z).errorMessage ≠ none) := by
  refine ⟨Or.inl rfl, fun hc => ?_⟩
  simp [runMonteCarlo] at hc

/-- C10: for every configuration (including none set at all), run with no
registered callbacks returns a SimulationResult whose status is success or
failed, a failed status always carries a non-None error message, and
is_running is False after run returns (given the only reachable pre-call
flag value, False). -/
theorem run_returns_status_and_resets_flag (inp : EngineInput) (isRunning0 : Bool)
    (h : isRunning0 = false) :
    ((SimulationEngine.run isRunning0 inp).result.status = "success" ∨
        (SimulationEngine.run isRunning0 inp).result.status = "failed") ∧
      ((SimulationEngine.run isRunning0 inp).result.status = "failed" →
        (SimulationEngine.run isRunning0 inp).result.errorMessage ≠ none) ∧
      (SimulationEngine.run isRunning0 inp).isRunning = false := by
  subst h
  obtain ⟨cfg, z, ode⟩ := inp
  cases cfg with
  | none =>
      have he := emptyFailed_ok "No simulation configuration set"
      exact ⟨he.1, he.2, rfl⟩
  | some c =>
      have hres : (SimulationEngine.run false ⟨some c, z, ode⟩).result =
          (if c.simType = "dc" then runDC
           else if c.simType = "ac" then runAC c.sweepRange
           else if c.simType = "transient" then
             runTransient c.duration c.timeStep ode
           else if c.simType = "parametric" then
             runParametric c.sweepingParameter c.sweepRange
           else if c.simType = "monte_carlo" then
             runMonteCarlo c.monteCarloSamples z
           else emptyFailed "Unknown simulation type") := rfl
      have hflag : (SimulationEngine.run false ⟨some c, z, ode⟩).isRunning = false := rfl
      rw [hres, hflag]
      split_ifs
      · exact ⟨runDC_ok.1, runDC_ok.2, rfl⟩
      · exact ⟨(runAC_ok _).1, (runAC_ok _).2, rfl⟩
      · exact ⟨(runTransient_ok _ _ _).1, (runTransient_ok _ _ _).2, rfl⟩
      · exact ⟨(runParametric_ok _ _).1, (runParametric_ok _ _).2, rfl⟩
      · exact ⟨(runMonteCarlo_ok _ _).1, (runMonteCarlo_ok _ _).2, rfl⟩
      · have he := emptyFailed_ok "Unknown simulation type"
        exact ⟨he.1, he.2, rfl⟩

/-- Witness for C10 at a concrete DC run from a settled engine. -/
theorem run_returns_status_and_resets_flag_witness :
    ((SimulationEngine.run false
        ⟨some { simType := "dc" }, fun _ => 0, fun _ => 0⟩).result.status = "success" ∨
      (SimulationEngine.run false
        ⟨some { simType := "dc" }, fun _ => 0, fun _ => 0⟩).result.status = "failed") ∧
      ((SimulationEngine.run false
          ⟨some { simType := "dc" }, fun _ => 0, fun _ => 0⟩).result.status = "failed" →
        (SimulationEngine.run false
          ⟨some { simType := "dc" }, fun _ => 0, fun _ => 0⟩).result.errorMessage ≠ none) ∧
      (SimulationEngine.run false
        ⟨some { simType := "dc" }, fun _ => 0, fun _ => 0⟩).isRunning = false :=
  run_returns_status_and_resets_flag ⟨some { simType := "dc" }, fun _ => 0, fun _ => 0⟩
    false rfl

/-- C8 (code bug): the Monte Carlo driver's normal draws use the hardcoded
tolerance 0.05 (sigma = 0.05/3, never zero) around the hardcoded nominal
resistance 1000, whatever the configuration says; a run whose draws differ
produces distinct output samples, so the tolerance-zero degenerate case of
the claim is unreachable in the code. -/
theorem runMonteCarlo_hardcoded_tolerance :
    mcRTolerance = 1 / 20 ∧ mcSigma = mcRTolerance / 3 ∧ mcSigma ≠ 0 ∧
      (∀ z : ℕ → ℝ, ∀ i, mcSample z i = mcRNominal * (1 + mcRTolerance / 3 * z i)) ∧
      (runMonteCarlo 2 mcDraws).nodeVoltages.lookup "V_output_samples" =
        some [(5 : ℝ) - 5 / 1000 * (1 / 10), 5 - 5 / 1050 * (1 / 10)] ∧
      ((5 : ℝ) - 5 / 1000 * (1 / 10)) ≠ 5 - 5 / 1050 * (1 / 10) := by
  refine ⟨rfl, rfl, by norm_num [mcSigma, mcRTolerance], fun z i => rfl, ?_, by norm_num⟩
  have h0 : mcSample mcDraws 0 = 1000 := by
    norm_num [mcSample, mcDraws, mcSigma, mcRTolerance, mcRNominal]
  have h1 : mcSample mcDraws 1 = 1050 := by
    norm_num [mcSample, mcDraws, mcSigma, mcRTolerance, mcRNominal]
  have hlook : (runMonteCarlo 2 mcDraws).nodeVoltages.lookup "V_output_samples" =
      some ([0, 1].map (fun i => (5 : ℝ) - 5 / mcSample mcDraws i * (1 / 10))) := rfl
  rw [hlook]
  simp [h0, h1]

/-! ## AC sweep theorems -/

/-- Logspace points are strictly increasing in the index when the sweep
range is positive and forward-ordered. -/
lemma acFreq_strictMono (fs fe : ℝ) (h0 : 0 < fs) (hlt : fs < fe) {i j : ℕ}
    (hij : i < j) : acFreq fs fe i < acFreq fs fe j := by
  unfold acFreq
  rw [Real.rpow_lt_rpow_left_iff (by norm_num : (1:ℝ) < 10)]
  have hab : Real.logb 10 fs < Real.logb 10 fe :=
    Real.logb_lt_logb (by norm_num) h0 hlt
  have hc : 0 < (Real.logb 10 fe - Real.logb 10 fs) / 99 :=
    div_pos (sub_pos.2 hab) (by norm_num)
  rw [mul_div_assoc, mul_div_assoc]
  exact add_lt_add_left
    (mul_lt_mul_of_pos_right (by exact_mod_cast hij) hc) _

/-- Counterexample to C7 as stated: for the caller-specified reversed range
(100 Hz down to 1 Hz) the frequency axis of the AC result is the logspace
sweep whose second point is strictly below its first, so the axis is not
monotonically increasing for every caller-specified range. -/
theorem runAC_reversed_range_axis_not_monotone :
    (runAC (some (100, 1))).timePoints = (List.range 100).map (acFreq 100 1) ∧
      acFreq 100 1 1 < acFreq 100 1 0 := by
  refine ⟨rfl, ?_⟩
  unfold acFreq
  rw [Real.rpow_lt_rpow_left_iff (by norm_num : (1:ℝ) < 10)]
  have h100 : Real.logb 10 100 = 2 := by
    rw [show (100:ℝ) = (10:ℝ) ^ (2:ℝ) by
      rw [show (2:ℝ) = ((2:ℕ):ℝ) by norm_num, Real.rpow_natCast]
      norm_num]
    exact Real.logb_rpow (by norm_num) (by norm_num)
  rw [h100, Real.logb_one]
  norm_num

/-- C7 (amended): for a caller-specified frequency range with
0 < f_start < f_end, the AC solver sweeps 100 logarithmically spaced
points, its frequency axis is strictly increasing, and each recorded
series (impedance magnitude, current magnitude) is a pure per-frequency
function mapped over the axis - no state is carried between points. -/
theorem runAC_sweep_properties (fs fe : ℝ) (h0 : 0 < fs) (hlt : fs < fe) :
    (runAC (some (fs, fe))).timePoints = (List.range 100).map (acFreq fs fe) ∧
      (runAC (some (fs, fe))).timePoints.length = 100 ∧
      (∀ i j, i < j → acFreq fs fe i < acFreq fs fe j) ∧
      (runAC (some (fs, fe))).nodeVoltages.lookup "Z_magnitude" =
        some ((runAC (some (fs, fe))).timePoints.map
          (fun f => Complex.abs (acZtotal f))) ∧
      (runAC (some (fs, fe))).componentCurrents.lookup "I_total" =
        some ((runAC (some (fs, fe))).timePoints.map
          (fun f => Complex.abs (1 / acZtotal f))) := by
  refine ⟨rfl, by simp [runAC], fun i j hij => acFreq_strictMono fs fe h0 hlt hij,
    rfl, rfl⟩

/-- Witness for C7 (amended) on the range 1 Hz to 1 MHz. -/
theorem runAC_sweep_properties_witness :
    (runAC (some (1, 1000000))).timePoints =
        (List.range 100).map (acFreq 1 1000000) ∧
      (runAC (some (1, 1000000))).timePoints.length = 100 ∧
      (∀ i j, i < j → acFreq 1 1000000 i < acFreq 1 1000000 j) ∧
      (runAC (some (1, 1000000))).nodeVoltages.lookup "Z_magnitude" =
        some ((runAC (some (1, 1000000))).timePoints.map
          (fun f => Complex.abs (acZtotal f))) ∧
      (runAC (some (1, 1000000))).componentCurrents.lookup "I_total" =
        some ((runAC (some (1, 1000000))).timePoints.map
          (fun f => Complex.abs (1 / acZtotal f))) :=
  runAC_sweep_properties 1 1000000 (by norm_num) (by norm_num)

/-! ## Round-trip theorems -/

/-- Round trip of a string value. -/
lemma jsonRoundTrip_str (s : String) :
    jsonRoundTrip (.str s) = .str s := by
  rw [jsonRoundTrip]

/-- Round trip of a numeric value. -/
lemma jsonRoundTrip_num (q : ℚ) :
    jsonRoundTrip (.num q) = .num q := by
  rw [jsonRoundTrip]

/-- Round trip of a list value. -/
lemma jsonRoundTrip_list (xs : List PyValue) :
    jsonRoundTrip (.list xs) = .list (xs.map jsonRoundTrip) := by
  rw [jsonRoundTrip]
  simp [List.attach_map_coe]

/-- Round trip of a tuple value: it becomes a list. -/
lemma jsonRoundTrip_tuple (xs : List PyValue) :
    jsonRoundTrip (.tuple xs) = .list (xs.map jsonRoundTrip) := by
  rw [jsonRoundTrip]
  simp [List.attach_map_coe]

/-- Round trip of a dict value. -/
lemma jsonRoundTrip_dict (es : List (String × PyValue)) :
    jsonRoundTrip (.dict es) =
      .dict (es.map (fun e => (e.1, jsonRoundTrip e.2))) := by
  rw [jsonRoundTrip]
  rw [List.attach_map_coe es (fun e => (e.1, jsonRoundTrip e.2))]

/-- Mapping then traversing with a pointwise-successful parse succeeds. -/
lemma parseAll_map_some {α β γ : Type} (h : α → β) (f : β → Option γ) (g : α → γ)
    (l : List α) (hfg : ∀ x ∈ l, f (h x) = some (g x)) :
    parseAll f (l.map h) = some (l.map g) := by
  induction l with
  | nil => rfl
  | cons a t ih =>
      simp [parseAll, hfg a (by simp),
        ih (fun x hx => hfg x (by simp [hx]))]

/-- Parsing back a serialized string list recovers it. -/
lemma asStringList_roundTrip (l : List String) :
    PyValue.asStringList (.list (l.map PyValue.str)) = some l := by
  have h := parseAll_map_some PyValue.str PyValue.asString id l (fun x _ => rfl)
  simp only [PyValue.asStringList, h, List.map_id]

/-- Parsing back one serialized component dict recovers its bindings. -/
lemma compBindings_roundTrip (m : MComponent) :
    compBindings (jsonRoundTrip m.toDict) = some m.nodes := by
  rw [MComponent.toDict, jsonRoundTrip_dict]
  simp only [List.map_cons, List.map_nil, jsonRoundTrip_str, jsonRoundTrip_num,
    jsonRoundTrip_list, jsonRoundTrip_dict, List.map_map]
  rw [compBindings]
  simp [PyValue.dictEntries, List.lookup, Function.comp_def, jsonRoundTrip_str,
    asStringList_roundTrip]

/-- C9: serializing a netlist with Circuit.to_dict, writing it through the
JSON layer and reloading it reproduces an electrically identical topology -
the same node id set, component id set and terminal/connection bindings -
and the topology is independent of display-only position fields. -/
theorem toDict_roundTrip_topology (c : Circuit) (g : String → ℚ × ℚ) :
    extractTopology (jsonRoundTrip c.toDict) = some c.topology ∧
      (mapPositions g c).topology = c.topology := by
  constructor
  · have hbind : parseAll
          (fun p => (compBindings p.2).map (fun ns => (p.1, ns)))
          (c.components.map (fun p => (p.1, jsonRoundTrip p.2.toDict))) =
        some (c.components.map (fun p => (p.1, p.2.nodes))) :=
      parseAll_map_some _ _ _ _ (fun x _ => by
        simp [compBindings_roundTrip x.2])
    have hconn : parseAll PyValue.asPair
          (c.connections.map (fun p =>
            jsonRoundTrip (PyValue.tuple [.str p.1, .str p.2]))) =
        some c.connections := by
      have h := parseAll_map_some
        (fun p : String × String =>
          jsonRoundTrip (PyValue.tuple [.str p.1, .str p.2]))
        PyValue.asPair id c.connections (fun x _ => by
          simp only [jsonRoundTrip_tuple, List.map_cons, List.map_nil,
            jsonRoundTrip_str]
          simp [PyValue.asPair])
      simpa using h
    rw [Circuit.toDict, jsonRoundTrip_dict]
    simp only [List.map_cons, List.map_nil, jsonRoundTrip_str, jsonRoundTrip_dict,
      jsonRoundTrip_list, List.map_map]
    rw [extractTopology]
    simp [List.lookup, PyValue.dictEntries, Function.comp_def, hconn,
      Circuit.topology, List.map_map, hbind]
  · simp [mapPositions, Circuit.topology, List.map_map, Function.comp_def]

/-! ## Connectivity theorems: adjacency construction lemmas -/

/-- Inserting a neighbour never changes the key list. -/
lemma adjInsert_keys (adj : List (String × List String)) (k v : String) :
    (adjInsert adj k v).map Prod.fst = adj.map Prod.fst := by
  simp only [adjInsert, List.map_map]
  refine List.map_congr_left (fun p _ => ?_)
  by_cases h : p.1 = k <;> simp [h]

/-- Unfolding of insertion over a cons cell. -/
lemma adjInsert_cons (ak : String) (al : List String)
    (t : List (String × List String)) (k v : String) :
    adjInsert ((ak, al) :: t) k v =
      (ak, if ak = k then (if v ∈ al then al else al ++ [v]) else al) ::
        adjInsert t k v := by
  by_cases h : ak = k <;> simp [adjInsert, h]

/-- Neighbour list of the head key. -/
lemma adjGet_cons_self (ak : String) (al : List String)
    (t : List (String × List String)) : adjGet ((ak, al) :: t) ak = al := by
  simp [adjGet, List.lookup_cons]

/-- Neighbour list of a non-head key. -/
lemma adjGet_cons_ne (ak : String) (al : List String)
    (t : List (String × List String)) (k' : String) (h : k' ≠ ak) :
    adjGet ((ak, al) :: t) k' = adjGet t k' := by
  simp [adjGet, List.lookup_cons, beq_false_of_ne h]

/-- Processing a wire never changes the key list. -/
lemma wireStep_keys (adj : List (String × List String)) (w : Wire) :
    (wireStep adj w).map Prod.fst = adj.map Prod.fst := by
  obtain ⟨fo, t0⟩ := w
  cases fo with
  | none => rfl
  | some f =>
      cases t0 with
      | none => rfl
      | some t =>
          show (if adjContains adj f ∧ adjContains adj t then
              adjInsert (adjInsert adj f t) t f else adj).map Prod.fst =
            adj.map Prod.fst
          split_ifs <;> simp [adjInsert_keys]

/-- Folding wires never changes the key list. -/
lemma foldl_wireStep_keys (ws : List Wire) :
    ∀ adj : List (String × List String),
      (ws.foldl wireStep adj).map Prod.fst = adj.map Prod.fst := by
  induction ws with
  | nil => intro adj; rfl
  | cons w t ih => intro adj; rw [List.foldl_cons, ih, wireStep_keys]

/-- Key membership test agrees with the key list. -/
lemma adjContains_iff (adj : List (String × List String)) (k : String) :
    adjContains adj k = true ↔ k ∈ adj.map Prod.fst := by
  simp [adjContains, List.any_eq_true, List.mem_map]

/-- Neighbour lists only grow under insertion. -/
lemma mem_adjGet_adjInsert (k v k' x : String)
    (adj : List (String × List String)) :
    x ∈ adjGet adj k' → x ∈ adjGet (adjInsert adj k v) k' := by
  induction adj with
  | nil =>
      intro hx
      simp [adjGet] at hx
  | cons a t ih =>
      obtain ⟨ak, al⟩ := a
      intro hx
      rw [adjInsert_cons]
      by_cases h : k' = ak
      · subst h
        rw [adjGet_cons_self] at hx
        rw [adjGet_cons_self]
        split_ifs with h1 h2
        · exact hx
        · exact List.mem_append_left _ hx
        · exact hx
      · rw [adjGet_cons_ne _ _ _ _ h] at hx
        rw [adjGet_cons_ne _ _ _ _ h]
        exact ih hx

/-- After inserting a neighbour under a present key, it is a neighbour. -/
lemma self_mem_adjGet_adjInsert (k v : String)
    (adj : List (String × List String)) :
    k ∈ adj.map Prod.fst → v ∈ adjGet (adjInsert adj k v) k := by
  induction adj with
  | nil =>
      intro hk
      simp at hk
  | cons a t ih =>
      obtain ⟨ak, al⟩ := a
      intro hk
      rw [adjInsert_cons]
      by_cases h : k = ak
      · subst h
        rw [adjGet_cons_self, if_pos rfl]
        split_ifs with hv
        · exact hv
        · exact List.mem_append_right _ (List.mem_singleton_self _)
      · rw [adjGet_cons_ne _ _ _ _ h]
        refine ih ?_
        simp only [List.map_cons] at hk
        rcases List.mem_cons.1 hk with h1 | h1
        · exact absurd h1 h
        · exact h1

/-- Every neighbour after an insertion was already a neighbour or is the
inserted id. -/
lemma mem_adjGet_adjInsert_elim (k v k' x : String)
    (adj : List (String × List String)) :
    x ∈ adjGet (adjInsert adj k v) k' → x ∈ adjGet adj k' ∨ x = v := by
  induction adj with
  | nil =>
      intro hx
      simp [adjGet, adjInsert] at hx
  | cons a t ih =>
      obtain ⟨ak, al⟩ := a
      intro hx
      rw [adjInsert_cons] at hx
      by_cases h : k' = ak
      · subst h
        rw [adjGet_cons_self] at hx
        rw [adjGet_cons_self]
        split_ifs at hx with h1 h2
        · exact Or.inl hx
        · rcases List.mem_append.1 hx with h3 | h3
          · exact Or.inl h3
          · exact Or.inr (List.mem_singleton.1 h3)
        · exact Or.inl hx
      · rw [adjGet_cons_ne _ _ _ _ h] at hx
        rw [adjGet_cons_ne _ _ _ _ h]
        exact ih hx

/-- Processing a wire only grows neighbour lists. -/
lemma mem_adjGet_wireStep (adj : List (String × List String)) (w : Wire)
    (k x : String) (hx : x ∈ adjGet adj k) : x ∈ adjGet (wireStep adj w) k := by
  obtain ⟨fo, t0⟩ := w
  cases fo with
  | none => exact hx
  | some f =>
      cases t0 with
      | none => exact hx
      | some t =>
          show x ∈ adjGet (if adjContains adj f ∧ adjContains adj t then
            adjInsert (adjInsert adj f t) t f else adj) k
          split_ifs with h
          · exact mem_adjGet_adjInsert _ _ _ _ _ (mem_adjGet_adjInsert _ _ _ _ _ hx)
          · exact hx

/-- Folding further wires only grows neighbour lists. -/
lemma mem_adjGet_foldl (ws : List Wire) :
    ∀ (adj : List (String × List String)) (k x : String),
      x ∈ adjGet adj k → x ∈ adjGet (ws.foldl wireStep adj) k := by
  induction ws with
  | nil => exact fun adj k x hx => hx
  | cons w t ih =>
      exact fun adj k x hx => ih _ _ _ (mem_adjGet_wireStep adj w k x hx)

/-- A wire between two present keys creates its forward and backward edge. -/
lemma wire_edge_foldl (f t : String) (ws : List Wire) :
    ∀ adj : List (String × List String), (⟨some f, some t⟩ : Wire) ∈ ws →
      f ∈ adj.map Prod.fst → t ∈ adj.map Prod.fst →
      t ∈ adjGet (ws.foldl wireStep adj) f ∧
        f ∈ adjGet (ws.foldl wireStep adj) t := by
  induction ws with
  | nil =>
      intro adj hw
      simp at hw
  | cons w ws2 ih =>
      intro adj hw hf ht
      rcases List.mem_cons.1 hw with rfl | hw2
      · rw [List.foldl_cons]
        have hstep : wireStep adj ⟨some f, some t⟩ =
            adjInsert (adjInsert adj f t) t f := by
          show (if adjContains adj f ∧ adjContains adj t then
            adjInsert (adjInsert adj f t) t f else adj) = _
          rw [if_pos ⟨(adjContains_iff _ _).2 hf, (adjContains_iff _ _).2 ht⟩]
        constructor
        · refine mem_adjGet_foldl ws2 _ _ _ ?_
          rw [hstep]
          exact mem_adjGet_adjInsert _ _ _ _ _ (self_mem_adjGet_adjInsert _ _ _ hf)
        · refine mem_adjGet_foldl ws2 _ _ _ ?_
          rw [hstep]
          refine self_mem_adjGet_adjInsert _ _ _ ?_
          rw [adjInsert_keys]
          exact ht
      · rw [List.foldl_cons]
        refine ih _ hw2 ?_ ?_
        · rw [wireStep_keys]; exact hf
        · rw [wireStep_keys]; exact ht

/-- The freshly initialised adjacency list has empty neighbour lists. -/
lemma adjGet_init (comps : List (String × CompData)) (k : String) :
    adjGet (comps.map (fun p => (p.1, ([] : List String)))) k = [] := by
  induction comps with
  | nil => rfl
  | cons a t ih =>
      rw [List.map_cons]
      by_cases h : k = a.1
      · rw [h, adjGet_cons_self]
      · rw [adjGet_cons_ne _ _ _ _ h]
        exact ih

/-- One wire step keeps all neighbour ids inside the key universe. -/
lemma adjGet_wireStep_subset (adj : List (String × List String)) (w : Wire)
    (U : List String) (hkeys : adj.map Prod.fst = U)
    (hsub : ∀ k x, x ∈ adjGet adj k → x ∈ U) :
    ∀ k x, x ∈ adjGet (wireStep adj w) k → x ∈ U := by
  obtain ⟨fo, t0⟩ := w
  cases fo with
  | none => exact hsub
  | some f =>
      cases t0 with
      | none => exact hsub
      | some t =>
          intro k x
          show x ∈ adjGet (if adjContains adj f ∧ adjContains adj t then
            adjInsert (adjInsert adj f t) t f else adj) k → x ∈ U
          split_ifs with h
          · intro hx
            rcases mem_adjGet_adjInsert_elim _ _ _ _ _ hx with hx1 | rfl
            · rcases mem_adjGet_adjInsert_elim _ _ _ _ _ hx1 with hx2 | rfl
              · exact hsub _ _ hx2
              · exact hkeys ▸ (adjContains_iff _ _).1 h.2
            · exact hkeys ▸ (adjContains_iff _ _).1 h.1
          · exact hsub k x

/-- Every neighbour id in the built adjacency list is a component id. -/
lemma adjGet_buildAdjacency_subset (comps : List (String × CompData))
    (wires : List Wire) :
    ∀ k x, x ∈ adjGet (buildAdjacency comps wires) k →
      x ∈ comps.map Prod.fst := by
  suffices h : ∀ (ws : List Wire) (adj : List (String × List String)),
      adj.map Prod.fst = comps.map Prod.fst →
      (∀ k x, x ∈ adjGet adj k → x ∈ comps.map Prod.fst) →
      ∀ k x, x ∈ adjGet (ws.foldl wireStep adj) k → x ∈ comps.map Prod.fst by
    refine h wires _ ?_ ?_
    · simp [List.map_map, Function.comp_def]
    · intro k x hx
      rw [adjGet_init] at hx
      simp at hx
  intro ws
  induction ws with
  | nil => exact fun adj _ hs => hs
  | cons w ws2 ih =>
      intro adj hk hs
      rw [List.foldl_cons]
      exact ih _ (by rw [wireStep_keys]; exact hk)
        (adjGet_wireStep_subset adj w _ hk hs)

/-- Keys of the built adjacency list are exactly the component ids. -/
lemma buildAdjacency_keys (comps : List (String × CompData))
    (wires : List Wire) :
    (buildAdjacency comps wires).map Prod.fst = comps.map Prod.fst := by
  rw [buildAdjacency, foldl_wireStep_keys]
  simp [List.map_map, Function.comp_def]

/-! ## Connectivity theorems: BFS lemmas -/

/-- One BFS neighbour pass appends exactly the fresh neighbours, in order,
to both the visited list and the queue. -/
lemma bfsFold_spec (nbs : List String) :
    ∀ v q : List String,
      ∃ d, nbs.foldl
          (fun (vq : List String × List String) nb =>
            if nb ∈ vq.1 then vq else (vq.1 ++ [nb], vq.2 ++ [nb])) (v, q) =
          (v ++ d, q ++ d) ∧
        d.Nodup ∧ (∀ x ∈ d, x ∈ nbs ∧ x ∉ v) ∧ (∀ x ∈ nbs, x ∈ v ++ d) := by
  induction nbs with
  | nil =>
      intro v q
      exact ⟨[], by simp⟩
  | cons a t ih =>
      intro v q
      by_cases ha : a ∈ v
      · obtain ⟨d, h1, h2, h3, h4⟩ := ih v q
        refine ⟨d, ?_, h2, fun x hx => ⟨List.mem_cons_of_mem _ (h3 x hx).1,
          (h3 x hx).2⟩, ?_⟩
        · rw [List.foldl_cons, if_pos ha]
          exact h1
        · intro x hx
          rcases List.mem_cons.1 hx with rfl | hx
          · exact List.mem_append_left _ ha
          · exact h4 x hx
      · obtain ⟨d, h1, h2, h3, h4⟩ := ih (v ++ [a]) (q ++ [a])
        refine ⟨a :: d, ?_, ?_, ?_, ?_⟩
        · rw [List.foldl_cons, if_neg ha, h1]
          simp
        · refine List.Nodup.cons (fun had => ?_) h2
          exact (h3 a had).2 (List.mem_append_right _ (List.mem_singleton_self _))
        · intro x hx
          rcases List.mem_cons.1 hx with rfl | hx
          · exact ⟨List.mem_cons_self _ _, ha⟩
          · exact ⟨List.mem_cons_of_mem _ (h3 x hx).1,
              fun hv => (h3 x hx).2 (List.mem_append_left _ hv)⟩
        · intro x hx
          rcases List.mem_cons.1 hx with rfl | hx
          · simp
          · have := h4 x hx
            simpa [List.append_assoc] using this

/-- A BFS run appends a duplicate-free block of fresh ids to the visited
list. -/
lemma bfsRun_append (adj : List (String × List String)) :
    ∀ (fuel : ℕ) (q v : List String),
      ∃ d, bfsRun adj fuel q v = v ++ d ∧ d.Nodup ∧ ∀ x ∈ d, x ∉ v := by
  intro fuel
  induction fuel with
  | zero =>
      intro q v
      exact ⟨[], by simp [bfsRun]⟩
  | succ n ih =>
      intro q v
      cases q with
      | nil => exact ⟨[], by simp [bfsRun]⟩
      | cons c rest =>
          obtain ⟨d1, h1, hnd1, hdp1, _⟩ := bfsFold_spec (adjGet adj c) v rest
          obtain ⟨d2, h2, hnd2, hf2⟩ := ih (rest ++ d1) (v ++ d1)
          refine ⟨d1 ++ d2, ?_, ?_, ?_⟩
          · show bfsRun adj n _ _ = _
            rw [h1]
            simpa [List.append_assoc] using h2
          · refine List.Nodup.append hnd1 hnd2 (fun a ha1 ha2 => ?_)
            exact hf2 a ha2 (List.mem_append_right _ ha1)
          · intro x hx
            rcases List.mem_append.1 hx with hx | hx
            · exact (hdp1 x hx).2
            · exact fun hv => hf2 x hx (List.mem_append_left _ hv)

/-- A BFS run stays inside a universe containing the start state and all
neighbour lists. -/
lemma bfsRun_subset (adj : List (String × List String)) (U : List String)
    (hadj : ∀ k, ∀ x ∈ adjGet adj k, x ∈ U) :
    ∀ (fuel : ℕ) (q v : List String), (∀ x ∈ v, x ∈ U) →
      ∀ x ∈ bfsRun adj fuel q v, x ∈ U := by
  intro fuel
  induction fuel with
  | zero =>
      intro q v hv
      simpa [bfsRun] using hv
  | succ n ih =>
      intro q v hv
      cases q with
      | nil => simpa [bfsRun] using hv
      | cons c rest =>
          obtain ⟨d1, h1, _, hdp, _⟩ := bfsFold_spec (adjGet adj c) v rest
          have hrun : bfsRun adj (n + 1) (c :: rest) v =
              bfsRun adj n (rest ++ d1) (v ++ d1) := by
            show bfsRun adj n _ _ = _
            rw [h1]
          intro x hx
          rw [hrun] at hx
          refine ih (rest ++ d1) (v ++ d1) ?_ x hx
          intro y hy
          rcases List.mem_append.1 hy with hy | hy
          · exact hv y hy
          · exact hadj c y (hdp y hy).1

/-- When the fuel dominates the standard BFS measure, the run empties its
queue and the visited result is closed under the adjacency relation. -/
lemma bfsRun_closed (adj : List (String × List String)) (U : List String)
    (hadj : ∀ k, ∀ x ∈ adjGet adj k, x ∈ U) :
    ∀ (fuel : ℕ) (q v : List String),
      (U.toFinset \ v.toFinset).card + q.length ≤ fuel →
      (∀ x ∈ q, x ∈ v) →
      (∀ x ∈ v, x ∈ q ∨ ∀ y ∈ adjGet adj x, y ∈ v) →
      ∀ x ∈ bfsRun adj fuel q v, ∀ y ∈ adjGet adj x,
        y ∈ bfsRun adj fuel q v := by
  intro fuel
  induction fuel with
  | zero =>
      intro q v hm hq hP
      have hq0 : q = [] := by
        have : q.length = 0 := by omega
        exact List.length_eq_zero.1 this
      subst hq0
      simp only [bfsRun]
      intro x hx y hy
      rcases hP x hx with h | h
      · simp at h
      · exact h y hy
  | succ n ih =>
      intro q v hm hq hP
      cases q with
      | nil =>
          simp only [bfsRun]
          intro x hx y hy
          rcases hP x hx with h | h
          · simp at h
          · exact h y hy
      | cons c rest =>
          obtain ⟨d, hfold, hnd, hdprop, hcov⟩ := bfsFold_spec (adjGet adj c) v rest
          have hdU : ∀ x ∈ d, x ∈ U := fun x hx => hadj c x (hdprop x hx).1
          have hdnotv : ∀ x ∈ d, x ∉ v := fun x hx => (hdprop x hx).2
          have hsubd : d.toFinset ⊆ U.toFinset \ v.toFinset := by
            intro x hx
            rw [List.mem_toFinset] at hx
            rw [Finset.mem_sdiff, List.mem_toFinset, List.mem_toFinset]
            exact ⟨hdU x hx, hdnotv x hx⟩
          have hsdiff : U.toFinset \ (v ++ d).toFinset =
              (U.toFinset \ v.toFinset) \ d.toFinset := by
            ext a
            simp only [Finset.mem_sdiff, List.mem_toFinset, List.mem_append]
            tauto
          have hcardd : d.toFinset.card = d.length := List.toFinset_card_of_nodup hnd
          have hle : d.toFinset.card ≤ (U.toFinset \ v.toFinset).card :=
            Finset.card_le_card hsubd
          have hcard : (U.toFinset \ (v ++ d).toFinset).card =
              (U.toFinset \ v.toFinset).card - d.length := by
            rw [hsdiff, Finset.card_sdiff hsubd, hcardd]
          have hm2 : (U.toFinset \ (v ++ d).toFinset).card +
              (rest ++ d).length ≤ n := by
            rw [hcard, List.length_append]
            simp only [List.length_cons] at hm
            omega
          have hq2 : ∀ x ∈ rest ++ d, x ∈ v ++ d := by
            intro x hx
            rcases List.mem_append.1 hx with hx | hx
            · exact List.mem_append_left _ (hq x (List.mem_cons_of_mem _ hx))
            · exact List.mem_append_right _ hx
          have hP2 : ∀ x ∈ v ++ d, x ∈ rest ++ d ∨
              ∀ y ∈ adjGet adj x, y ∈ v ++ d := by
            intro x hx
            rcases List.mem_append.1 hx with hx | hx
            · rcases hP x hx with h | h
              · rcases List.mem_cons.1 h with rfl | h
                · exact Or.inr (fun y hy => hcov y hy)
                · exact Or.inl (List.mem_append_left _ h)
              · exact Or.inr (fun y hy => List.mem_append_left _ (h y hy))
            · exact Or.inl (List.mem_append_right _ hx)
          have hrun : bfsRun adj (n + 1) (c :: rest) v =
              bfsRun adj n (rest ++ d) (v ++ d) := by
            show bfsRun adj n _ _ = _
            rw [hfold]
          rw [hrun]
          exact ih (rest ++ d) (v ++ d) hm2 hq2 hP2

/-! ## Connectivity theorems: outer loop lemmas -/

/-- Unfolding of the outer loop at an already-visited component. -/
lemma connLoop_cons_mem (adj : List (String × List String)) (fuel : ℕ)
    (c : String) (rest v : List String) (hc : c ∈ v) :
    connLoop adj fuel (c :: rest) v = connLoop adj fuel rest v := by
  simp [connLoop, hc]

/-- Unfolding of the outer loop at a fresh component: launch a BFS and
record its newly visited block as a group. -/
lemma connLoop_cons_not_mem (adj : List (String × List String)) (fuel : ℕ)
    (c : String) (rest v : List String) (hc : c ∉ v) :
    connLoop adj fuel (c :: rest) v =
      ((bfsRun adj fuel [c] (v ++ [c])).drop v.length ::
        (connLoop adj fuel rest (bfsRun adj fuel [c] (v ++ [c]))).1,
       (connLoop adj fuel rest (bfsRun adj fuel [c] (v ++ [c]))).2) := by
  simp [connLoop, hc]

/-- The final visited list is the initial one followed by all groups. -/
lemma connLoop_snd (adj : List (String × List String)) (fuel : ℕ) :
    ∀ cs v : List String,
      (connLoop adj fuel cs v).2 = v ++ ((connLoop adj fuel cs v).1).flatten := by
  intro cs
  induction cs with
  | nil =>
      intro v
      simp [connLoop]
  | cons c rest ih =>
      intro v
      by_cases hc : c ∈ v
      · rw [connLoop_cons_mem adj fuel c rest v hc]
        exact ih v
      · rw [connLoop_cons_not_mem adj fuel c rest v hc]
        obtain ⟨d, hd, _, _⟩ := bfsRun_append adj fuel [c] (v ++ [c])
        rw [hd]
        have hdrop : ((v ++ [c]) ++ d).drop v.length = c :: d := by
          rw [List.append_assoc]
          exact List.drop_left v ([c] ++ d)
        rw [hdrop, ih ((v ++ [c]) ++ d)]
        simp [List.append_assoc]

/-- Every group consists of ids absent from the incoming visited list and
is duplicate free. -/
lemma connLoop_fresh (adj : List (String × List String)) (fuel : ℕ) :
    ∀ cs v : List String, ∀ g ∈ (connLoop adj fuel cs v).1,
      g.Nodup ∧ ∀ x ∈ g, x ∉ v := by
  intro cs
  induction cs with
  | nil =>
      intro v g hg
      simp [connLoop] at hg
  | cons c rest ih =>
      intro v g hg
      by_cases hc : c ∈ v
      · rw [connLoop_cons_mem adj fuel c rest v hc] at hg
        exact ih v g hg
      · rw [connLoop_cons_not_mem adj fuel c rest v hc] at hg
        obtain ⟨d, hd, hnd, hdn⟩ := bfsRun_append adj fuel [c] (v ++ [c])
        rw [hd] at hg
        have hdrop : ((v ++ [c]) ++ d).drop v.length = c :: d := by
          rw [List.append_assoc]
          exact List.drop_left v ([c] ++ d)
        rw [hdrop] at hg
        rcases List.mem_cons.1 hg with rfl | hg2
        · constructor
          · refine List.Nodup.cons (fun hcd => ?_) hnd
            exact hdn c hcd (List.mem_append_right _ (List.mem_singleton_self _))
          · intro x hx
            rcases List.mem_cons.1 hx with rfl | hx
            · exact hc
            · exact fun hv => hdn x hx (List.mem_append_left _ hv)
        · have h2 := ih ((v ++ [c]) ++ d) g hg2
          exact ⟨h2.1, fun x hx hv =>
            h2.2 x hx (List.mem_append_left _ (List.mem_append_left _ hv))⟩

/-- Distinct groups are disjoint. -/
lemma connLoop_pairwise (adj : List (String × List String)) (fuel : ℕ) :
    ∀ cs v : List String,
      List.Pairwise (fun g h => ∀ x ∈ g, x ∉ h) (connLoop adj fuel cs v).1 := by
  intro cs
  induction cs with
  | nil =>
      intro v
      simp [connLoop]
  | cons c rest ih =>
      intro v
      by_cases hc : c ∈ v
      · rw [connLoop_cons_mem adj fuel c rest v hc]
        exact ih v
      · rw [connLoop_cons_not_mem adj fuel c rest v hc]
        obtain ⟨d, hd, hnd, hdn⟩ := bfsRun_append adj fuel [c] (v ++ [c])
        refine List.pairwise_cons.2 ⟨?_, ih _⟩
        intro g hg x hx hxg
        have hfresh := (connLoop_fresh adj fuel rest
          (bfsRun adj fuel [c] (v ++ [c])) g hg).2 x hxg
        refine hfresh ?_
        rw [hd]
        rw [hd] at hx
        have hdrop : ((v ++ [c]) ++ d).drop v.length = c :: d := by
          rw [List.append_assoc]
          exact List.drop_left v ([c] ++ d)
        rw [hdrop] at hx
        rcases List.mem_cons.1 hx with rfl | hx
        · exact List.mem_append_left _ (List.mem_append_right _
            (List.mem_singleton_self _))
        · exact List.mem_append_right _ hx

/-- Every component handed to the loop ends up visited. -/
lemma connLoop_covers (adj : List (String × List String)) (fuel : ℕ) :
    ∀ cs v : List String, ∀ c0 ∈ cs, c0 ∈ (connLoop adj fuel cs v).2 := by
  intro cs
  induction cs with
  | nil =>
      intro v c0 hc0
      simp at hc0
  | cons c rest ih =>
      intro v c0 hc0
      by_cases hc : c ∈ v
      · rw [connLoop_cons_mem adj fuel c rest v hc]
        rcases List.mem_cons.1 hc0 with rfl | hc0
        · rw [connLoop_snd]
          exact List.mem_append_left _ hc
        · exact ih v c0 hc0
      · rw [connLoop_cons_not_mem adj fuel c rest v hc]
        rcases List.mem_cons.1 hc0 with rfl | hc0
        · show c0 ∈ (connLoop adj fuel rest (bfsRun adj fuel [c0] (v ++ [c0]))).2
          rw [connLoop_snd]
          refine List.mem_append_left _ ?_
          obtain ⟨d, hd, _, _⟩ := bfsRun_append adj fuel [c0] (v ++ [c0])
          rw [hd]
          exact List.mem_append_left _ (List.mem_append_right _
            (List.mem_singleton_self _))
        · exact ih _ c0 hc0

/-- The final visited list stays inside the component universe. -/
lemma connLoop_snd_subset (adj : List (String × List String)) (fuel : ℕ)
    (U : List String) (hadj : ∀ k, ∀ x ∈ adjGet adj k, x ∈ U) :
    ∀ cs v : List String, (∀ x ∈ v, x ∈ U) → (∀ c ∈ cs, c ∈ U) →
      ∀ x ∈ (connLoop adj fuel cs v).2, x ∈ U := by
  intro cs
  induction cs with
  | nil =>
      intro v hv _
      simpa [connLoop] using hv
  | cons c rest ih =>
      intro v hv hcs
      by_cases hc : c ∈ v
      · rw [connLoop_cons_mem adj fuel c rest v hc]
        exact ih v hv (fun x hx => hcs x (List.mem_cons_of_mem _ hx))
      · rw [connLoop_cons_not_mem adj fuel c rest v hc]
        refine ih _ ?_ (fun x hx => hcs x (List.mem_cons_of_mem _ hx))
        refine bfsRun_subset adj U hadj fuel [c] (v ++ [c]) ?_
        intro y hy
        rcases List.mem_append.1 hy with hy | hy
        · exact hv y hy
        · rw [List.mem_singleton.1 hy]
          exact hcs c (List.mem_cons_self _ _)

/-- Starting from a visited list already covering the components, the loop
creates no group. -/
lemma connLoop_all_visited (adj : List (String × List String)) (fuel : ℕ) :
    ∀ cs v : List String, (∀ c ∈ cs, c ∈ v) →
      (connLoop adj fuel cs v).1 = [] := by
  intro cs
  induction cs with
  | nil =>
      intro v _
      simp [connLoop]
  | cons c rest ih =>
      intro v h
      rw [connLoop_cons_mem adj fuel c rest v (h c (List.mem_cons_self _ _))]
      exact ih v (fun x hx => h x (List.mem_cons_of_mem _ hx))

/-! ## Connectivity theorems: chain netlists -/

/-- Keys of a chain netlist are its component ids. -/
lemma chainComponents_keys (ids : List String) :
    (chainComponents ids).map Prod.fst = ids := by
  simp [chainComponents, List.map_map, Function.comp_def]

/-- Walking a consecutive-edge list from a member of an adjacency-closed
set keeps every element inside the set. -/
lemma chain_reach (adj : List (String × List String)) (S : List String)
    (hclosed : ∀ x ∈ S, ∀ y ∈ adjGet adj x, y ∈ S) :
    ∀ l : List String, (∀ p ∈ l.zip l.tail, p.2 ∈ adjGet adj p.1) →
      ∀ x0, l.head? = some x0 → x0 ∈ S → ∀ x ∈ l, x ∈ S := by
  intro l
  induction l with
  | nil =>
      intro _ x0 h
      simp at h
  | cons a t ih =>
      intro hz x0 hh hx0 x hx
      rw [List.head?_cons, Option.some.injEq] at hh
      subst hh
      rcases List.mem_cons.1 hx with rfl | hx
      · exact hx0
      · cases t with
        | nil => simp at hx
        | cons b t2 =>
            have hab : b ∈ adjGet adj a := by
              refine hz (a, b) ?_
              rw [List.tail_cons, List.zip_cons_cons]
              exact List.mem_cons_self _ _
            have hbS : b ∈ S := hclosed a hx0 b hab
            refine ih ?_ b rfl hbS x hx
            intro p hp
            refine hz p ?_
            rw [List.tail_cons, List.zip_cons_cons]
            exact List.mem_cons_of_mem _ hp

/-- Consecutive chain components are adjacent in the built graph. -/
lemma chain_adj (ids : List String) (p : String × String)
    (hp : p ∈ ids.zip ids.tail) :
    p.2 ∈ adjGet (buildAdjacency (chainComponents ids) (chainWires ids)) p.1 := by
  have hmem := List.of_mem_zip hp
  have hkeys : ((chainComponents ids).map
      (fun q => (q.1, ([] : List String)))).map Prod.fst = ids := by
    simp [chainComponents, List.map_map, Function.comp_def]
  have hw : (⟨some p.1, some p.2⟩ : Wire) ∈ chainWires ids := by
    refine List.mem_map.2 ⟨p, hp, rfl⟩
  exact (wire_edge_foldl p.1 p.2 (chainWires ids) _ hw
    (by rw [hkeys]; exact hmem.1)
    (by rw [hkeys]; exact List.mem_of_mem_tail hmem.2)).1

/-- The BFS sweep of a chain netlist produces exactly one group holding
all component ids. -/
lemma chain_one_group (ids : List String) (hne : ids ≠ []) :
    (connectivityGroups (chainComponents ids) (chainWires ids)).length = 1 ∧
      ∀ x, x ∈ (connectivityGroups (chainComponents ids)
        (chainWires ids)).flatten ↔ x ∈ ids := by
  obtain ⟨a, rest, rfl⟩ := List.exists_cons_of_ne_nil hne
  have hkeys := chainComponents_keys (a :: rest)
  have hlen : (chainComponents (a :: rest)).length = (a :: rest).length := by
    simp [chainComponents]
  have hunfold : connectivityGroups (chainComponents (a :: rest))
      (chainWires (a :: rest)) =
      (connLoop (buildAdjacency (chainComponents (a :: rest))
          (chainWires (a :: rest)))
        ((a :: rest).length + 1) (a :: rest) []).1 := by
    rw [connectivityGroups, hkeys, hlen]
  set adj := buildAdjacency (chainComponents (a :: rest))
    (chainWires (a :: rest)) with hadj
  set fuel := (a :: rest).length + 1 with hfuel
  have hadjsub : ∀ k, ∀ x ∈ adjGet adj k, x ∈ (a :: rest) := by
    intro k x hx
    have := adjGet_buildAdjacency_subset (chainComponents (a :: rest))
      (chainWires (a :: rest)) k x hx
    rwa [hkeys] at this
  set S := bfsRun adj fuel [a] [a] with hS
  have hclosed : ∀ x ∈ S, ∀ y ∈ adjGet adj x, y ∈ S := by
    refine bfsRun_closed adj (a :: rest) hadjsub fuel [a] [a] ?_ ?_ ?_
    · have h1 : ((a :: rest).toFinset \ [a].toFinset).card ≤
          (a :: rest).toFinset.card :=
        Finset.card_le_card (Finset.sdiff_subset)
      have h2 := List.toFinset_card_le (a :: rest)
      simp only [hfuel, List.length_singleton]
      omega
    · intro x hx
      exact hx
    · intro x hx
      exact Or.inl hx
  have haS : a ∈ S := by
    obtain ⟨d, hd, _, _⟩ := bfsRun_append adj fuel [a] [a]
    rw [hS, hd]
    exact List.mem_append_left _ (List.mem_singleton_self _)
  have hall : ∀ x ∈ (a :: rest), x ∈ S := by
    refine chain_reach adj S hclosed (a :: rest) ?_ a rfl haS
    intro p hp
    exact chain_adj (a :: rest) p hp
  have hsub : ∀ x ∈ S, x ∈ (a :: rest) := by
    refine bfsRun_subset adj (a :: rest) hadjsub fuel [a] [a] ?_
    intro x hx
    rw [List.mem_singleton.1 hx]
    exact List.mem_cons_self _ _
  have hgroups : (connLoop adj fuel (a :: rest) []).1 = [S] := by
    rw [connLoop_cons_not_mem adj fuel a rest [] (by simp)]
    have hS2 : bfsRun adj fuel [a] ([] ++ [a]) = S := by
      rw [List.nil_append]
    rw [hS2]
    have hrest : (connLoop adj fuel rest S).1 = [] := by
      refine connLoop_all_visited adj fuel rest S ?_
      intro x hx
      exact hall x (List.mem_cons_of_mem _ hx)
    rw [hrest]
    simp
  rw [hunfold, hgroups]
  refine ⟨rfl, fun x => ?_⟩
  simp only [List.flatten, List.append_nil]
  exact ⟨hsub x, hall x⟩

/-- C4: the BFS sweep of _analyze_connectivity decomposes any netlist's
component ids into pairwise disjoint, duplicate-free groups whose union is
the full component id set, and on a netlist whose components are wired
into a single chain it returns exactly one group holding all component
ids. -/
theorem connectivityGroups_partition_and_chain
    (comps : List (String × CompData)) (wires : List Wire) (ids : List String)
    (hne : ids ≠ []) :
    List.Pairwise (fun g h => ∀ x ∈ g, x ∉ h) (connectivityGroups comps wires) ∧
      (∀ g ∈ connectivityGroups comps wires, g.Nodup) ∧
      (∀ x, x ∈ (connectivityGroups comps wires).flatten ↔
        x ∈ comps.map Prod.fst) ∧
      (connectivityGroups (chainComponents ids) (chainWires ids)).length = 1 ∧
      (∀ x, x ∈ (connectivityGroups (chainComponents ids)
        (chainWires ids)).flatten ↔ x ∈ ids) := by
  have hchain := chain_one_group ids hne
  refine ⟨?_, ?_, ?_, hchain.1, hchain.2⟩
  · rw [connectivityGroups]
    exact connLoop_pairwise _ _ _ _
  · rw [connectivityGroups]
    intro g hg
    exact (connLoop_fresh _ _ _ _ g hg).1
  · rw [connectivityGroups]
    intro x
    have hflat : ((connLoop (buildAdjacency comps wires) (comps.length + 1)
        (comps.map Prod.fst) []).1).flatten =
        (connLoop (buildAdjacency comps wires) (comps.length + 1)
          (comps.map Prod.fst) []).2 := by
      rw [connLoop_snd]
      simp
    rw [hflat]
    constructor
    · intro hx
      refine connLoop_snd_subset (buildAdjacency comps wires) (comps.length + 1)
        (comps.map Prod.fst) ?_ (comps.map Prod.fst) [] ?_ ?_ x hx
      · exact adjGet_buildAdjacency_subset comps wires
      · intro y hy
        simp at hy
      · exact fun c0 hc0 => hc0
    · intro hx
      exact connLoop_covers _ _ _ _ x hx

/-- Witness for C4 on a two-component netlist and the three-id chain. -/
theorem connectivityGroups_partition_and_chain_witness :
    List.Pairwise (fun g h => ∀ x ∈ g, x ∉ h)
        (connectivityGroups [("a", {}), ("b", {})] []) ∧
      (∀ g ∈ connectivityGroups [("a", {}), ("b", {})] [], g.Nodup) ∧
      (∀ x, x ∈ (connectivityGroups [("a", {}), ("b", {})] []).flatten ↔
        x ∈ ([("a", ({} : CompData)), ("b", {})]).map Prod.fst) ∧
      (connectivityGroups (chainComponents chain3) (chainWires chain3)).length = 1 ∧
      (∀ x, x ∈ (connectivityGroups (chainComponents chain3)
        (chainWires chain3)).flatten ↔ x ∈ chain3) :=
  connectivityGroups_partition_and_chain [("a", {}), ("b", {})] [] chain3
    (by decide)

end VED

